import Mathlib

/-!
Verification of the Chapter-1 Kamin interpreter (kaminpy, `chapter1/kamin1.py`),
a small arithmetic-expression language: integer literals, seven binary
operators, and the three special forms `if`, `print`, `begin`.

The embedding below translates the Python 2 source directly:

* Expressions are the values produced by `read`/`atom`: Python `int`,
  `str`, and nested `list` become the inductive `Expr`.
  (CPython 2 distinguishes machine `int` from arbitrary-precision `long`;
  both are modelled by `Int`, eliding that platform-width artifact.)
* Run-time values are Python ints or the callables stored in the
  `operators` dict; they become the inductive `Value`.
* Exceptions become an error inductive `Err`.  The interpreter defines
  its own hierarchy (`InvalidOperator`, `NullExpression`,
  `MissingArguments`, `TooManyArguments` below `EvaluationError` and
  `InterpreterError`); native CPython exceptions that the interpreter can
  also raise (`ZeroDivisionError`, `IndexError`, `TypeError`) get their
  own constructors, with `Err.isInterpreterError` recording which of them
  the class hierarchy covers.
* The output sink (`output.write` in `print_cmd`) is modelled as the list
  of lines written so far, threaded through evaluation.
-/

set_option linter.unusedVariables false

namespace Kamin1

/-- Parsing errors: subclasses of `InputError` in the source. -/
inductive InputError
  | unexpectedEndOfInput
  | unexpectedRightParen
deriving DecidableEq, Repr

/-- The seven entries of the `operators` dict. -/
inductive Op
  | add | sub | mul | div | eq | lt | gt
deriving DecidableEq, Repr

/-- A run-time value: a Python int, or one of the callables stored in the
`operators` dict (there is no other way a callable enters evaluation). -/
inductive Value
  | int (n : Int)
  | op (o : Op)
deriving DecidableEq, Repr

/-- Python truthiness of a value, as used by `if_cmd`: an int is truthy
iff nonzero; a function object is always truthy. -/
def Value.truthy : Value → Bool
  | .int n => n != 0
  | .op _ => true

/-- The argument object carried by `InvalidOperator`: either the string
that missed the `operators` dict (symbol branch) or the non-callable
value found in operator position (application branch). -/
inductive ErrArg
  | ofName (s : String)
  | ofValue (v : Value)
deriving DecidableEq, Repr

/-- Evaluation-time exceptions.  The first four are the classes the
interpreter defines under `EvaluationError`; the last three are native
CPython exceptions that evaluation can also raise. -/
inductive Err
  | invalidOperator (a : ErrArg)
  | nullExpression
  | missingArguments
  | tooManyArguments
  | zeroDivisionError
  | indexError
  | typeError (msg : String)
deriving DecidableEq, Repr

/-- Whether an error is an instance of the interpreter taxonomy
(`InterpreterError` and its subclasses) as opposed to a native fault. -/
def Err.isInterpreterError : Err → Bool
  | .invalidOperator _ => true
  | .nullExpression => true
  | .missingArguments => true
  | .tooManyArguments => true
  | _ => false

/-- The exception families caught by the `repl` loop:
`except (InterpreterError, ZeroDivisionError)`.  Anything else
escapes the loop (there is no catch-all). -/
def Err.caughtByRepl : Err → Bool
  | .zeroDivisionError => true
  | e => e.isInterpreterError

/-- Expressions, as built by the reader: Python int, str, or list. -/
inductive Expr
  | int (n : Int)
  | sym (s : String)
  | list (es : List Expr)
deriving Repr

/-- The three handlers registered in the `commands` dict. -/
inductive Cmd
  | ifC | printC | beginC
deriving DecidableEq, Repr

/-- Lookup in the `commands` dict (`if`, `print`, `begin`). -/
def commandOf (s : String) : Option Cmd :=
  if s = "if" then some .ifC
  else if s = "print" then some .printC
  else if s = "begin" then some .beginC
  else none

/-- What `inspect.getargspec` reports for each handler, reduced to what
`check_args` uses: the number of fixed arguments after `output`, and
whether the handler declares a `*rest` tail.
`if_cmd(output, test, conseq, alt)` gives (3, false);
`print_cmd(output, arg)` gives (1, false);
`begin_cmd(output, first, *rest)` gives (1, true). -/
def getargspec : Cmd → Nat × Bool
  | .ifC => (3, false)
  | .printC => (1, false)
  | .beginC => (1, true)

/-- `check_args`: `min_args = max_args = len(fixed_args[1:])`; raise
`TooManyArguments` when there is no `*rest` and too many arguments were
supplied, else `MissingArguments` when too few were supplied. -/
def check_args (c : Cmd) (nargs : Nat) : Except Err Unit :=
  let spec := getargspec c
  if spec.2 = false ∧ spec.1 < nargs then .error .tooManyArguments
  else if nargs < spec.1 then .error .missingArguments
  else .ok ()

/-- The `operators` dict. -/
def operators (s : String) : Option Op :=
  if s = "+" then some .add
  else if s = "-" then some .sub
  else if s = "*" then some .mul
  else if s = "/" then some .div
  else if s = "=" then some .eq
  else if s = "<" then some .lt
  else if s = ">" then some .gt
  else none

/-- A fixed enumeration order standing in for CPython function-object
identity order (`id()`): CPython 2 compares two function objects by
address, an order that is arbitrary but fixed within a process.  No
claim depends on which order is used. -/
def opIdx : Op → Nat
  | .add => 0 | .sub => 1 | .mul => 2 | .div => 3
  | .eq => 4 | .lt => 5 | .gt => 6

/-- CPython 2 `<` on the values that can reach the comparison operators:
ints compare numerically; a number sorts before any non-number object;
two function objects compare by address (see `opIdx`). -/
def valueLt : Value → Value → Bool
  | .int a, .int b => a < b
  | .int _, .op _ => true
  | .op _, .int _ => false
  | .op a, .op b => opIdx a < opIdx b

/-- Applying one of the seven callables of the `operators` dict to two
values.  `op.div` on Python 2 ints is floor division; a zero divisor
raises `ZeroDivisionError`.  `op.add`/`sub`/`mul`/`div` on a function
operand raise a native `TypeError` (unsupported operand types); the
comparison lambdas succeed on any operands under CPython 2 ordering. -/
def applyOp : Op → Value → Value → Except Err Value
  | .add, .int a, .int b => .ok (.int (a + b))
  | .sub, .int a, .int b => .ok (.int (a - b))
  | .mul, .int a, .int b => .ok (.int (a * b))
  | .div, .int a, .int b =>
      if b = 0 then .error .zeroDivisionError else .ok (.int (Int.fdiv a b))
  | .eq, a, b => .ok (.int (if a = b then 1 else 0))
  | .lt, a, b => .ok (.int (if valueLt a b then 1 else 0))
  | .gt, a, b => .ok (.int (if valueLt b a then 1 else 0))
  | _, _, _ => .error (.typeError "unsupported operand types")

/-- Decimal digit characters of `n`, most significant first, with enough
fuel; mirrors what Python `str` produces for a nonnegative integer. -/
def natStrAux : Nat → Nat → List Char
  | 0, _ => []
  | f + 1, n =>
      if n < 10 then [Nat.digitChar n]
      else natStrAux f (n / 10) ++ [Nat.digitChar (n % 10)]

/-- Python `str` of a nonnegative integer. -/
def natStr (n : Nat) : String := ⟨natStrAux (n + 1) n⟩

/-- Python `str` of an integer (used by `print_cmd` via `%s` and by the
repl when rendering a value). -/
def intStr (n : Int) : String :=
  if n < 0 then "-" ++ natStr n.natAbs else natStr n.natAbs

/-- Python `str` of an operator value: `op.add` etc. are built-in
functions, the comparisons are lambdas (whose rendering includes a
memory address, elided here).  No claim depends on these strings. -/
def opStr : Op → String
  | .add => "<built-in function add>"
  | .sub => "<built-in function sub>"
  | .mul => "<built-in function mul>"
  | .div => "<built-in function div>"
  | _ => "<function <lambda>>"

/-- `%s` rendering of a value, as written by `print_cmd`. -/
def render : Value → String
  | .int n => intStr n
  | .op o => opStr o

/-- The application phase of `evaluate` (the final `else` branch): given
the already-evaluated element values, pop the operator position, demand
a callable, unpack exactly two arguments (`arg1, arg2 = exps`, whose
`ValueError` messages are translated to `MissingArguments` /
`TooManyArguments`), and apply. -/
def appPhase : Except Err (List Value) × List String →
    Except Err Value × List String
  | (.error e, o) => (.error e, o)
  | (.ok exps, o) =>
    match exps with
    | [] => (.error .nullExpression, o)
    | operator :: args =>
      match operator with
      | .op f =>
        match args with
        | [a, b] => (applyOp f a b, o)
        | _ =>
          if args.length < 2 then (.error .missingArguments, o)
          else (.error .tooManyArguments, o)
      | .int _ => (.error (.invalidOperator (.ofValue operator)), o)

mutual

/-- `evaluate(expression, output)`.  The output sink is the list of lines
written so far; the result pairs the value or exception with the final
sink contents.  Dispatch follows the source exactly:
ints are self-evaluating; strings are looked up in `operators`;
for a list, `expression[0] in commands` is tested first — on an empty
list the subscript raises a native `IndexError`, and on a list head the
dict lookup raises a native `TypeError` (unhashable key) — then either
the special-form path (`check_args`, handler) or the application path
(evaluate all elements, then `appPhase`) runs. -/
def evaluate : Expr → List String → Except Err Value × List String
  | .int n, out => (.ok (.int n), out)
  | .sym s, out =>
    (match operators s with
     | some o => (.ok (.op o), out)
     | none => (.error (.invalidOperator (.ofName s)), out))
  | .list [], out => (.error .indexError, out)
  | .list (.list inner :: rest), out =>
    (.error (.typeError "unhashable type: list"), out)
  | .list (.int n :: args), out => appPhase (evalSeq (.int n :: args) out)
  | .list (.sym s :: args), out =>
    (match commandOf s with
     | some c =>
       (match check_args c args.length with
        | .error e => (.error e, out)
        | .ok _ =>
          (match c, args with
           | .ifC, [t, cq, alt] => if_cmd t cq alt out
           | .printC, [a] => print_cmd a out
           | .beginC, f :: r => begin_cmd f r out
           | _, _ => (.error (.typeError "handler arity"), out)))
     | none => appPhase (evalSeq (.sym s :: args) out))
termination_by e out => sizeOf e

/-- The list comprehension `[evaluate(exp, output) for exp in expression]`:
left-to-right, stopping at the first exception. -/
def evalSeq : List Expr → List String → Except Err (List Value) × List String
  | [], out => (.ok [], out)
  | e :: es, out =>
    (match evaluate e out with
     | (.error err, o) => (.error err, o)
     | (.ok v, o) =>
       (match evalSeq es o with
        | (.error err, o2) => (.error err, o2)
        | (.ok vs, o2) => (.ok (v :: vs), o2)))
termination_by es out => sizeOf es

/-- `if_cmd(output, test, conseq, alt)`. -/
def if_cmd : Expr → Expr → Expr → List String → Except Err Value × List String
  | test, conseq, alt, out =>
    (match evaluate test out with
     | (.error e, o) => (.error e, o)
     | (.ok v, o) => if v.truthy then evaluate conseq o else evaluate alt o)
termination_by t c a out => 1 + sizeOf t + sizeOf c + sizeOf a

/-- `print_cmd(output, arg)`: evaluate, write one line, return the value. -/
def print_cmd : Expr → List String → Except Err Value × List String
  | arg, out =>
    (match evaluate arg out with
     | (.error e, o) => (.error e, o)
     | (.ok v, o) => (.ok v, o ++ [render v]))
termination_by a out => 1 + sizeOf a

/-- `begin_cmd(output, first, *rest)`: evaluate each in order, return the
last value. -/
def begin_cmd : Expr → List Expr → List String → Except Err Value × List String
  | f, [], out => evaluate f out
  | f, x :: r, out =>
    (match evaluate f out with
     | (.error e, o) => (.error e, o)
     | (.ok _, o) => begin_cmd x r o)
termination_by f r out => 1 + sizeOf f + sizeOf r

end

/-! ### The reader -/

/-- `REGEX_INTEGER.match(token)`: an optional leading minus followed by
one or more ASCII digits, consuming the whole token (the pattern is
anchored with `$`; tokens contain no whitespace, so the newline subtlety
of `$` cannot arise). -/
def isIntTok (t : String) : Bool :=
  match t.data with
  | [] => false
  | c :: cs =>
    if c = '-' then !cs.isEmpty && cs.all Char.isDigit
    else (c :: cs).all Char.isDigit

/-- Base-10 value of a big-endian digit-character list, as computed by
Python `int` on a digit string. -/
def digitsVal (cs : List Char) : Nat :=
  cs.foldl (fun acc c => 10 * acc + (c.toNat - 48)) 0

/-- Python `int(token)` for a token matched by `REGEX_INTEGER`: the
base-10 value of the digits, negated when a leading minus is present
(the empty arm is unreachable on matched tokens). -/
def tokValue (t : String) : Int :=
  match t.data with
  | c :: cs => if c = '-' then -(digitsVal cs : Int) else (digitsVal (c :: cs) : Int)
  | [] => 0

/-- `atom(token)`: numbers as numbers, everything else as symbols. -/
def atom (t : String) : Expr :=
  if isIntTok t then .int (tokValue t) else .sym t

mutual

/-- `read(tokens)`, fuelled (the Python version recurses while popping
from a shared token list; fuel makes the recursion structural, and
`read` below supplies enough fuel for it never to run out).
Returns the expression together with the unconsumed tokens. -/
def readE : Nat → List String → Option (Except InputError (Expr × List String))
  | 0, _ => none
  | _ + 1, [] => some (.error .unexpectedEndOfInput)
  | f + 1, t :: ts =>
    if t = "(" then
      match readL f ts with
      | none => none
      | some (.error e) => some (.error e)
      | some (.ok (es, rest)) => some (.ok (.list es, rest))
    else if t = ")" then some (.error .unexpectedRightParen)
    else some (.ok (atom t, ts))

/-- The loop inside the `(` branch of `read`: keep reading
sub-expressions until the next token is `)`; consume the `)`.
Running out of tokens at any point raises `UnexpectedEndOfInput`. -/
def readL : Nat → List String → Option (Except InputError (List Expr × List String))
  | 0, _ => none
  | _ + 1, [] => some (.error .unexpectedEndOfInput)
  | f + 1, t :: ts =>
    if t = ")" then some (.ok ([], ts))
    else
      match readE f (t :: ts) with
      | none => none
      | some (.error e) => some (.error e)
      | some (.ok (e, ts1)) =>
        match readL f ts1 with
        | none => none
        | some (.error e2) => some (.error e2)
        | some (.ok (es, rest)) => some (.ok (e :: es, rest))

end

/-- `read(tokens)` with its canonical fuel (shown sufficient in
`readE_isSome`). -/
def read (ts : List String) : Except InputError (Expr × List String) :=
  (readE (2 * ts.length + 2) ts).getD (.error .unexpectedEndOfInput)

/-- Does a scan of `ts` that starts inside `d` unclosed `(` ever close
them all?  This is the "matching `)` is eventually seen" predicate used
to characterise when the reader runs out of input. -/
def matchClose : Nat → List String → Bool
  | 0, _ => true
  | _ + 1, [] => false
  | d + 1, t :: ts =>
    if t = "(" then matchClose (d + 2) ts
    else if t = ")" then matchClose d ts
    else matchClose (d + 1) ts

/-! ### Reader lemmas -/

/-- A successful read consumes a nonempty prefix; for one expression the
consumed prefix has equally many `(` and `)` tokens, and the loop body
(which also consumes the closing `)`) has one extra `)`. -/
lemma read_consume (f : Nat) :
    (∀ ts e rest, readE f ts = some (.ok (e, rest)) →
      ∃ pre, ts = pre ++ rest ∧ pre ≠ [] ∧ pre.count "(" = pre.count ")") ∧
    (∀ ts es rest, readL f ts = some (.ok (es, rest)) →
      ∃ pre, ts = pre ++ rest ∧ pre ≠ [] ∧ pre.count ")" = pre.count "(" + 1) := by
  induction f with
  | zero =>
    refine ⟨fun ts e rest h => ?_, fun ts es rest h => ?_⟩ <;> simp [readE, readL] at h
  | succ f ih =>
    obtain ⟨ihE, ihL⟩ := ih
    constructor
    · intro ts e rest h
      match ts with
      | [] => simp [readE] at h
      | t :: ts' =>
        by_cases h1 : t = "("
        · subst h1
          simp only [readE, if_pos rfl] at h
          cases hL : readL f ts' with
          | none => rw [hL] at h; simp at h
          | some r =>
            rw [hL] at h
            cases r with
            | error e' => simp at h
            | ok p =>
              obtain ⟨es, rest'⟩ := p
              simp at h
              obtain ⟨he, hr⟩ := h
              subst hr
              obtain ⟨pre, hpre, hne, hcnt⟩ := ihL ts' es _ hL
              refine ⟨"(" :: pre, by simp [hpre], by simp, ?_⟩
              simp [List.count_cons, hcnt]
        · by_cases h2 : t = ")"
          · subst h2; simp [readE, h1] at h
          · simp only [readE, if_neg h1, if_neg h2] at h
            simp at h
            obtain ⟨he, hr⟩ := h
            subst hr
            refine ⟨[t], by simp, by simp, ?_⟩
            simp [List.count_cons, h1, h2]
    · intro ts es rest h
      match ts with
      | [] => simp [readL] at h
      | t :: ts' =>
        by_cases h1 : t = ")"
        · subst h1
          simp only [readL, if_pos rfl] at h
          simp at h
          obtain ⟨he, hr⟩ := h
          subst hr
          exact ⟨[")"], by simp, by simp, by simp [List.count_cons]⟩
        · simp only [readL, if_neg h1] at h
          cases hE : readE f (t :: ts') with
          | none => rw [hE] at h; simp at h
          | some r1 =>
            rw [hE] at h
            cases r1 with
            | error e1 => simp at h
            | ok p1 =>
              obtain ⟨e1, ts1⟩ := p1
              simp only at h
              cases hL : readL f ts1 with
              | none => rw [hL] at h; simp at h
              | some r2 =>
                rw [hL] at h
                cases r2 with
                | error e2 => simp at h
                | ok p2 =>
                  obtain ⟨es2, rest2⟩ := p2
                  simp at h
                  obtain ⟨hes, hr⟩ := h
                  subst hr
                  obtain ⟨pre1, hp1, hn1, hc1⟩ := ihE (t :: ts') e1 ts1 hE
                  obtain ⟨pre2, hp2, hn2, hc2⟩ := ihL ts1 es2 _ hL
                  refine ⟨pre1 ++ pre2, by simp [hp1, hp2], by simp [hn1], ?_⟩
                  simp [List.count_append, hc1, hc2]
                  omega

/-- The canonical fuel used by `read` is always sufficient. -/
lemma read_isSome (f : Nat) :
    (∀ ts : List String, 2 * ts.length + 1 < f → (readE f ts).isSome) ∧
    (∀ ts : List String, 2 * ts.length + 2 < f → (readL f ts).isSome) := by
  induction f with
  | zero => refine ⟨fun ts h => ?_, fun ts h => ?_⟩ <;> omega
  | succ f ih =>
    obtain ⟨ihE, ihL⟩ := ih
    constructor
    · intro ts hf
      match ts with
      | [] => simp [readE]
      | t :: ts' =>
        by_cases h1 : t = "("
        · subst h1
          simp only [readE, if_pos rfl]
          have hs : (readL f ts').isSome := by
            apply ihL
            simp at hf
            omega
          cases hL : readL f ts' with
          | none => rw [hL] at hs; simp at hs
          | some r => cases r with
            | error e => simp
            | ok p => obtain ⟨es, rest⟩ := p; simp
        · by_cases h2 : t = ")"
          · subst h2; simp [readE, h1]
          · simp [readE, h1, h2]
    · intro ts hf
      match ts with
      | [] => simp [readL]
      | t :: ts' =>
        by_cases h1 : t = ")"
        · subst h1; simp [readL]
        · simp only [readL, if_neg h1]
          have hsE : (readE f (t :: ts')).isSome := by
            apply ihE
            simp at hf ⊢
            omega
          cases hE : readE f (t :: ts') with
          | none => rw [hE] at hsE; simp at hsE
          | some r1 =>
            cases r1 with
            | error e1 => simp
            | ok p1 =>
              obtain ⟨e1, ts1⟩ := p1
              simp only
              have hlen : ts1.length < ts'.length + 1 := by
                obtain ⟨pre, hp, hn, hcnt⟩ := (read_consume f).1 (t :: ts') e1 ts1 hE
                have hl1 : (t :: ts').length = pre.length + ts1.length := by
                  rw [hp]; simp
                have hl2 : pre.length ≠ 0 := by
                  intro h0
                  exact hn (List.length_eq_zero.mp h0)
                simp at hl1
                omega
              have hsL : (readL f ts1).isSome := by
                apply ihL
                simp at hf
                omega
              cases hL : readL f ts1 with
              | none => rw [hL] at hsL; simp at hsL
              | some r2 => cases r2 with
                | error e2 => simp
                | ok p2 => obtain ⟨es2, rest2⟩ := p2; simp

/-- `UnexpectedRightParen` escapes `read` only when the very first token
is a stray `)`; the loop body never produces it (the loop guard tests
for `)` before recursing). -/
lemma read_urp (f : Nat) :
    (∀ ts r, readE f ts = some r →
      r = .error .unexpectedRightParen → ts.head? = some ")") ∧
    (∀ ts r, readL f ts = some r → r ≠ .error .unexpectedRightParen) := by
  induction f with
  | zero =>
    refine ⟨fun ts r h => ?_, fun ts r h => ?_⟩ <;> simp [readE, readL] at h
  | succ f ih =>
    obtain ⟨ihE, ihL⟩ := ih
    constructor
    · intro ts r h hr
      subst hr
      match ts with
      | [] => simp [readE] at h
      | t :: ts' =>
        by_cases h1 : t = "("
        · subst h1
          simp only [readE, if_pos rfl] at h
          cases hL : readL f ts' with
          | none => rw [hL] at h; simp at h
          | some r1 =>
            rw [hL] at h
            cases r1 with
            | error e1 =>
              simp at h
              subst h
              exact absurd rfl (ihL ts' _ hL)
            | ok p1 => obtain ⟨es, rest⟩ := p1; simp at h
        · by_cases h2 : t = ")"
          · subst h2; simp
          · simp [readE, h1, h2] at h
    · intro ts r h hr
      subst hr
      match ts with
      | [] => simp [readL] at h
      | t :: ts' =>
        by_cases h1 : t = ")"
        · subst h1; simp [readL] at h
        · simp only [readL, if_neg h1] at h
          cases hE : readE f (t :: ts') with
          | none => rw [hE] at h; simp at h
          | some r1 =>
            rw [hE] at h
            cases r1 with
            | error e1 =>
              simp at h
              have h3 := ihE (t :: ts') (.error e1) hE (by rw [h])
              simp at h3
              exact h1 h3
            | ok p1 =>
              obtain ⟨e1, ts1⟩ := p1
              simp only at h
              cases hL : readL f ts1 with
              | none => rw [hL] at h; simp at h
              | some r2 =>
                rw [hL] at h
                cases r2 with
                | error e2 =>
                  simp at h
                  exact ihL ts1 (.error e2) hL (by rw [h])
                | ok p2 => obtain ⟨es2, rest2⟩ := p2; simp at h

lemma matchClose_open (d : Nat) (ts : List String) :
    matchClose (d + 1) ("(" :: ts) = matchClose (d + 2) ts := by
  simp [matchClose]

lemma matchClose_close (d : Nat) (ts : List String) :
    matchClose (d + 1) (")" :: ts) = matchClose d ts := by
  simp [matchClose]

lemma matchClose_atom (d : Nat) (t : String) (ts : List String)
    (h1 : t ≠ "(") (h2 : t ≠ ")") :
    matchClose (d + 1) (t :: ts) = matchClose (d + 1) ts := by
  simp [matchClose, h1, h2]

/-- Starting one level deeper never helps a scan close all parens. -/
lemma matchClose_mono (ts : List String) :
    ∀ d, matchClose (d + 1) ts = true → matchClose d ts = true := by
  induction ts with
  | nil => intro d h; simp [matchClose] at h
  | cons t ts ih =>
    intro d h
    cases d with
    | zero => simp [matchClose]
    | succ d =>
      by_cases h1 : t = "("
      · subst h1
        rw [matchClose_open] at h ⊢
        exact ih _ h
      · by_cases h2 : t = ")"
        · subst h2
          rw [matchClose_close] at h ⊢
          exact ih _ h
        · rw [matchClose_atom _ _ _ h1 h2] at h ⊢
          exact ih _ h

/-- A successfully consumed expression leaves the close-scanning state
unchanged (it contains balanced parens only); the loop body additionally
consumes one closing paren. -/
lemma read_shift (f : Nat) :
    (∀ ts e rest, readE f ts = some (.ok (e, rest)) →
      ∀ d, matchClose (d + 1) ts = matchClose (d + 1) rest) ∧
    (∀ ts es rest, readL f ts = some (.ok (es, rest)) →
      ∀ d, matchClose (d + 1) ts = matchClose d rest) := by
  induction f with
  | zero =>
    refine ⟨fun ts e rest h => ?_, fun ts es rest h => ?_⟩ <;>
      simp [readE, readL] at h
  | succ f ih =>
    obtain ⟨ihE, ihL⟩ := ih
    constructor
    · intro ts e rest h d
      match ts with
      | [] => simp [readE] at h
      | t :: ts' =>
        by_cases h1 : t = "("
        · subst h1
          simp only [readE, if_pos rfl] at h
          cases hL : readL f ts' with
          | none => rw [hL] at h; simp at h
          | some r1 =>
            rw [hL] at h
            cases r1 with
            | error e1 => simp at h
            | ok p1 =>
              obtain ⟨es, rest'⟩ := p1
              simp at h
              obtain ⟨he, hr⟩ := h
              subst hr
              have hsh := ihL ts' es _ hL (d + 1)
              simp only [matchClose, if_pos rfl]
              exact hsh
        · by_cases h2 : t = ")"
          · subst h2; simp [readE, h1] at h
          · simp only [readE, if_neg h1, if_neg h2] at h
            simp at h
            obtain ⟨he, hr⟩ := h
            subst hr
            simp [matchClose, h1, h2]
    · intro ts es rest h d
      match ts with
      | [] => simp [readL] at h
      | t :: ts' =>
        by_cases h1 : t = ")"
        · subst h1
          simp only [readL, if_pos rfl] at h
          simp at h
          obtain ⟨he, hr⟩ := h
          subst hr
          simp [matchClose]
        · simp only [readL, if_neg h1] at h
          cases hE : readE f (t :: ts') with
          | none => rw [hE] at h; simp at h
          | some r1 =>
            rw [hE] at h
            cases r1 with
            | error e1 => simp at h
            | ok p1 =>
              obtain ⟨e1, ts1⟩ := p1
              simp only at h
              cases hL : readL f ts1 with
              | none => rw [hL] at h; simp at h
              | some r2 =>
                rw [hL] at h
                cases r2 with
                | error e2 => simp at h
                | ok p2 =>
                  obtain ⟨es2, rest2⟩ := p2
                  simp at h
                  obtain ⟨hes, hr⟩ := h
                  subst hr
                  rw [ihE (t :: ts') e1 ts1 hE d]
                  exact ihL ts1 es2 _ hL d

/-- `UnexpectedEndOfInput` characterisation: the reader runs out of
tokens exactly on the empty stream, or after an opening `(` whose
matching `)` never appears. -/
lemma read_eoi (f : Nat) :
    (∀ ts r, readE f ts = some r →
      (r = .error .unexpectedEndOfInput ↔
        (ts = [] ∨ ∃ rest, ts = "(" :: rest ∧ matchClose 1 rest = false))) ∧
    (∀ ts r, readL f ts = some r →
      (r = .error .unexpectedEndOfInput ↔ matchClose 1 ts = false)) := by
  induction f with
  | zero =>
    refine ⟨fun ts r h => ?_, fun ts r h => ?_⟩ <;> simp [readE, readL] at h
  | succ f ih =>
    obtain ⟨ihE, ihL⟩ := ih
    constructor
    · intro ts r h
      match ts with
      | [] =>
        simp [readE] at h
        subst h
        simp
      | t :: ts' =>
        by_cases h1 : t = "("
        · subst h1
          simp only [readE, if_pos rfl] at h
          cases hL : readL f ts' with
          | none => rw [hL] at h; simp at h
          | some r1 =>
            rw [hL] at h
            cases r1 with
            | error e1 =>
              simp at h
              subst h
              have hiff := ihL ts' (.error e1) hL
              simp only [Except.error.injEq] at hiff ⊢
              rw [hiff]
              constructor
              · intro hm
                exact Or.inr ⟨ts', rfl, hm⟩
              · rintro (hc | ⟨rest, hrest, hm⟩)
                · exact absurd hc (by simp)
                · simp only [List.cons.injEq] at hrest
                  obtain ⟨-, hrest2⟩ := hrest
                  subst hrest2
                  exact hm
            | ok p1 =>
              obtain ⟨es, rest'⟩ := p1
              simp at h
              subst h
              constructor
              · intro hcon
                exact absurd hcon (by simp)
              · rintro (hc | ⟨rest, hrest, hm⟩)
                · exact absurd hc (by simp)
                · simp only [List.cons.injEq] at hrest
                  obtain ⟨-, hrest2⟩ := hrest
                  subst hrest2
                  exact absurd ((ihL ts' (.ok (es, rest')) hL).mpr hm) (by simp)
        · by_cases h2 : t = ")"
          · subst h2
            simp [readE, h1] at h
            subst h
            simp [h1]
          · simp only [readE, if_neg h1, if_neg h2] at h
            simp at h
            subst h
            simp [h1]
    · intro ts r h
      match ts with
      | [] =>
        simp [readL] at h
        subst h
        simp [matchClose]
      | t :: ts' =>
        by_cases h1 : t = ")"
        · subst h1
          simp only [readL, if_pos rfl] at h
          simp at h
          subst h
          simp [matchClose]
        · simp only [readL, if_neg h1] at h
          cases hE : readE f (t :: ts') with
          | none => rw [hE] at h; simp at h
          | some r1 =>
            rw [hE] at h
            cases r1 with
            | error e1 =>
              simp at h
              subst h
              constructor
              · intro hr
                have he1 : e1 = .unexpectedEndOfInput := by
                  cases e1
                  · rfl
                  · simp at hr
                subst he1
                have hspec := (ihE (t :: ts') _ hE).mp rfl
                rcases hspec with hc | ⟨rest, hrest, hm⟩
                · exact absurd hc (by simp)
                · simp only [List.cons.injEq] at hrest
                  obtain ⟨hrt, hrest2⟩ := hrest
                  subst hrt
                  have hstep : matchClose 1 ("(" :: ts') = matchClose 2 ts' := by
                    simp [matchClose]
                  rw [hstep, hrest2]
                  by_contra hcon
                  rw [Bool.not_eq_false] at hcon
                  have hmono := matchClose_mono rest 1 hcon
                  rw [hm] at hmono
                  simp at hmono
              · intro hm
                cases e1 with
                | unexpectedEndOfInput => rfl
                | unexpectedRightParen =>
                  have h3 := (read_urp f).1 (t :: ts') _ hE rfl
                  simp at h3
                  exact absurd h3 h1
            | ok p1 =>
              obtain ⟨e1, ts1⟩ := p1
              simp only at h
              cases hL : readL f ts1 with
              | none => rw [hL] at h; simp at h
              | some r2 =>
                rw [hL] at h
                cases r2 with
                | error e2 =>
                  simp at h
                  subst h
                  rw [ihL ts1 (.error e2) hL]
                  rw [(read_shift f).1 (t :: ts') e1 ts1 hE 0]
                | ok p2 =>
                  obtain ⟨es2, rest2⟩ := p2
                  simp at h
                  subst h
                  constructor
                  · intro hcon
                    exact absurd hcon (by simp)
                  · intro hm
                    have hm1 : matchClose 1 ts1 = false := by
                      rw [← (read_shift f).1 (t :: ts') e1 ts1 hE 0]
                      exact hm
                    exact absurd ((ihL ts1 (.ok (es2, rest2)) hL).mpr hm1) (by simp)

lemma readE_head_rparen (f : Nat) (ts : List String) :
    readE (f + 1) (")" :: ts) = some (.error .unexpectedRightParen) := by
  simp [readE]

/-- C4: the Reader fails with `UnexpectedRightParen` exactly when the
first token removed is a stray `)`; it fails with
`UnexpectedEndOfInput` exactly when the tokens are exhausted before one
complete expression is formed (the empty stream, or an opened `(` whose
matching `)` is never seen, expressed by the depth scan `matchClose`);
and on success the consumed prefix has equally many `(` and `)`. -/
theorem c4_reader_errors : ∀ ts : List String,
    (read ts = .error .unexpectedRightParen ↔ ts.head? = some ")") ∧
    (read ts = .error .unexpectedEndOfInput ↔
      (ts = [] ∨ ∃ rest, ts = "(" :: rest ∧ matchClose 1 rest = false)) ∧
    (∀ e rest, read ts = .ok (e, rest) →
      ∃ pre, ts = pre ++ rest ∧ pre.count "(" = pre.count ")") := by
  intro ts
  have hs : (readE (2 * ts.length + 2) ts).isSome :=
    (read_isSome _).1 ts (by omega)
  obtain ⟨r, hr⟩ := Option.isSome_iff_exists.mp hs
  have hread : read ts = r := by simp [read, hr]
  refine ⟨⟨?_, ?_⟩, ?_, ?_⟩
  · intro h
    rw [hread] at h
    exact (read_urp _).1 ts r hr h
  · intro h
    match ts with
    | [] => simp at h
    | t :: ts' =>
      simp at h
      subst h
      obtain ⟨k, hk⟩ : ∃ k, 2 * ((")" :: ts').length) + 2 = k + 1 :=
        ⟨2 * ((")" :: ts').length) + 1, by omega⟩
      simp only [read]
      rw [hk, readE_head_rparen]
      rfl
  · rw [hread]
    exact (read_eoi _).1 ts r hr
  · intro e rest h
    rw [hread] at h
    subst h
    obtain ⟨pre, hp, hn, hc⟩ := (read_consume _).1 ts e rest hr
    exact ⟨pre, hp, hc⟩

theorem c4_witness : read [")"] = .error .unexpectedRightParen :=
  ((c4_reader_errors [")"]).1).mpr rfl

/-! ### Integer token lemmas -/

lemma digitChar_isDigit : ∀ d : Nat, d < 10 → (Nat.digitChar d).isDigit = true := by
  decide

lemma digitChar_val : ∀ d : Nat, d < 10 → (Nat.digitChar d).toNat - 48 = d := by
  decide

lemma digitChar_ne_minus : ∀ d : Nat, d < 10 → Nat.digitChar d ≠ '-' := by
  decide

lemma natStrAux_all_digit : ∀ (f n : Nat), (natStrAux f n).all Char.isDigit = true := by
  intro f
  induction f with
  | zero => intro n; simp [natStrAux]
  | succ f ih =>
    intro n
    by_cases h : n < 10
    · simp [natStrAux, h, digitChar_isDigit n h]
    · simp only [natStrAux, if_neg h, List.all_append]
      simp [ih (n / 10), digitChar_isDigit (n % 10) (Nat.mod_lt n (by omega))]

lemma natStrAux_ne_nil (f n : Nat) : natStrAux (f + 1) n ≠ [] := by
  by_cases h : n < 10 <;> simp [natStrAux, h]

lemma digitsVal_append (cs : List Char) (c : Char) :
    digitsVal (cs ++ [c]) = 10 * digitsVal cs + (c.toNat - 48) := by
  simp [digitsVal, List.foldl_append]

lemma digitsVal_natStrAux : ∀ f n, n < 10 ^ f → digitsVal (natStrAux f n) = n := by
  intro f
  induction f with
  | zero =>
    intro n hn
    simp at hn
    subst hn
    simp [natStrAux, digitsVal]
  | succ f ih =>
    intro n hn
    by_cases h : n < 10
    · simp [natStrAux, h, digitsVal, digitChar_val n h]
    · rw [natStrAux, if_neg h, digitsVal_append]
      have hdiv : n / 10 < 10 ^ f := by
        rw [Nat.div_lt_iff_lt_mul (by omega)]
        rw [pow_succ] at hn
        exact hn
      rw [ih (n / 10) hdiv, digitChar_val (n % 10) (Nat.mod_lt n (by omega))]
      omega

lemma natStr_val (n : Nat) : digitsVal (natStrAux (n + 1) n) = n := by
  apply digitsVal_natStrAux
  calc n < 10 ^ n := Nat.lt_pow_self (by omega) n
  _ ≤ 10 ^ (n + 1) := Nat.pow_le_pow_right (by omega) (Nat.le_succ n)

/-- Rendering any integer with Python `str` and re-reading the token
with `atom` gives back the same integer. -/
lemma atom_intStr (n : Int) : atom (intStr n) = .int n := by
  by_cases hneg : n < 0
  · have hdata : (intStr n).data = '-' :: natStrAux (n.natAbs + 1) n.natAbs := by
      simp [intStr, if_pos hneg, natStr]
    have htok : isIntTok (intStr n) = true := by
      rw [isIntTok, hdata]
      simp only [if_pos rfl]
      have h1 := natStrAux_ne_nil n.natAbs n.natAbs
      have h2 := natStrAux_all_digit (n.natAbs + 1) n.natAbs
      simp [h1, h2]
    rw [atom, if_pos htok, tokValue, hdata]
    simp only [if_pos rfl]
    rw [natStr_val]
    have : (n.natAbs : Int) = -n := by omega
    rw [this]
    simp
  · have hne := natStrAux_ne_nil n.natAbs n.natAbs
    obtain ⟨c, cs, hcs⟩ : ∃ c cs, natStrAux (n.natAbs + 1) n.natAbs = c :: cs := by
      cases hx : natStrAux (n.natAbs + 1) n.natAbs with
      | nil => exact absurd hx hne
      | cons c cs => exact ⟨c, cs, rfl⟩
    have hdata : (intStr n).data = c :: cs := by
      simp [intStr, if_neg hneg, natStr, hcs]
    have hall : (c :: cs).all Char.isDigit = true := by
      rw [← hcs]; exact natStrAux_all_digit _ _
    have hcdig : c.isDigit = true := by
      simp [List.all_cons] at hall
      exact hall.1
    have hcm : c ≠ '-' := by
      intro h
      subst h
      simp [Char.isDigit] at hcdig
    have htok : isIntTok (intStr n) = true := by
      rw [isIntTok, hdata]
      simp [if_neg hcm, hall]
    rw [atom, if_pos htok, tokValue, hdata]
    simp only [if_neg hcm]
    rw [← hcs, natStr_val]
    have : (n.natAbs : Int) = n := by omega
    rw [this]

/-- C8 (amended): an integer token is read to its exact base-10 value,
any other non-parenthesis token becomes a `Symbol` verbatim, and the
read/render round trip holds for canonically rendered integers (tokens
with superfluous leading zeros read correctly but do not round-trip,
see the counterexample). -/
theorem c8_token_classification :
    (∀ t : String, isIntTok t = true → atom t = .int (tokValue t)) ∧
    (∀ t : String, isIntTok t = false → t ≠ "(" → t ≠ ")" → atom t = .sym t) ∧
    (∀ n : Int, atom (intStr n) = .int n) := by
  refine ⟨?_, ?_, atom_intStr⟩
  · intro t h
    simp [atom, h]
  · intro t h h1 h2
    simp [atom, h]

theorem c8_witness : isIntTok "42" = true ∧ atom "42" = .int (tokValue "42") :=
  ⟨by decide, c8_token_classification.1 "42" (by decide)⟩

/-- C8 counterexample: the token `007` matches the integer regex, is not
the minus-zero token, reads to the integer 7, but renders back as `7`,
so the read/render round trip fails beyond the minus-zero convention. -/
theorem c8_counterexample :
    isIntTok "007" = true ∧ ("007" : String) ≠ "-0" ∧
    atom "007" = .int 7 ∧ intStr 7 = "7" ∧ ("7" : String) ≠ "007" := by
  refine ⟨by decide, by decide, by rfl, by rfl, by decide⟩

/-! ### Floor-division lemmas -/

/-- `Int.fmod` bounds for a negative divisor: the remainder has the
divisor sign, `b < fmod a b ≤ 0`. -/
lemma fmod_bounds_neg {b : Int} (a : Int) (hb : b < 0) :
    b < a.fmod b ∧ a.fmod b ≤ 0 := by
  match b, hb with
  | .negSucc n, _ =>
    match a with
    | .ofNat 0 =>
      constructor
      · show Int.negSucc n < Int.fmod 0 (Int.negSucc n)
        rw [show Int.fmod 0 (Int.negSucc n) = 0 from rfl, Int.negSucc_eq]
        omega
      · show Int.fmod 0 (Int.negSucc n) ≤ 0
        rw [show Int.fmod 0 (Int.negSucc n) = 0 from rfl]
    | .ofNat (m + 1) =>
      have hfm : Int.fmod (.ofNat (m + 1)) (.negSucc n) =
          Int.subNatNat (m % (n + 1)) n := rfl
      have hlt : m % (n + 1) < n + 1 := Nat.mod_lt m (by omega)
      rw [hfm, Int.subNatNat_eq_coe, Int.negSucc_eq]
      omega
    | .negSucc m =>
      have hfm : Int.fmod (.negSucc m) (.negSucc n) =
          -(Int.ofNat ((m + 1) % (n + 1))) := rfl
      have hlt : (m + 1) % (n + 1) < n + 1 := Nat.mod_lt (m + 1) (by omega)
      rw [hfm]
      simp only [Int.negSucc_eq, Int.ofNat_eq_natCast]
      omega

/-- `Int.fdiv` computes the floor of the exact rational quotient:
`fdiv a b ≤ a / b < fdiv a b + 1` in `ℚ` for any nonzero divisor. -/
lemma fdiv_rat_bounds (a b : Int) (hb : b ≠ 0) :
    ((a.fdiv b : Int) : ℚ) ≤ (a : ℚ) / (b : ℚ) ∧
    (a : ℚ) / (b : ℚ) < ((a.fdiv b : Int) : ℚ) + 1 := by
  have hab := Int.fdiv_add_fmod a b
  have hbq : (b : ℚ) ≠ 0 := Int.cast_ne_zero.mpr hb
  have habq : (b : ℚ) * ((a.fdiv b : Int) : ℚ) + ((a.fmod b : Int) : ℚ) = a := by
    exact_mod_cast congrArg (fun z : Int => (z : ℚ)) hab
  have hdiv : (a : ℚ) / b = ((a.fdiv b : Int) : ℚ) + ((a.fmod b : Int) : ℚ) / b := by
    field_simp
    linarith [habq]
  rcases lt_or_gt_of_ne hb with hneg | hpos
  · obtain ⟨h1, h2⟩ := fmod_bounds_neg a hneg
    have hbq2 : (b : ℚ) < 0 := by exact_mod_cast hneg
    have h1q : (b : ℚ) < ((a.fmod b : Int) : ℚ) := by exact_mod_cast h1
    have h2q : ((a.fmod b : Int) : ℚ) ≤ 0 := by exact_mod_cast h2
    have hfrac0 : 0 ≤ ((a.fmod b : Int) : ℚ) / b :=
      div_nonneg_of_nonpos h2q (le_of_lt hbq2)
    have hfrac1 : ((a.fmod b : Int) : ℚ) / b < 1 := by
      have hnum : (0 : ℚ) < ((a.fmod b : Int) : ℚ) - b := by linarith
      have := div_neg_of_pos_of_neg hnum hbq2
      have heq : (((a.fmod b : Int) : ℚ) - b) / b =
          ((a.fmod b : Int) : ℚ) / b - 1 := by
        field_simp
      rw [heq] at this
      linarith
    constructor <;> rw [hdiv] <;> linarith
  · have hbq2 : (0 : ℚ) < b := by exact_mod_cast hpos
    have h1 := Int.fmod_nonneg' a hpos
    have h2 := Int.fmod_lt_of_pos a hpos
    have h1q : (0 : ℚ) ≤ ((a.fmod b : Int) : ℚ) := by exact_mod_cast h1
    have h2q : ((a.fmod b : Int) : ℚ) < b := by exact_mod_cast h2
    have hfrac0 : 0 ≤ ((a.fmod b : Int) : ℚ) / b := div_nonneg h1q (le_of_lt hbq2)
    have hfrac1 : ((a.fmod b : Int) : ℚ) / b < 1 := (div_lt_one hbq2).mpr h2q
    constructor <;> rw [hdiv] <;> linarith

/-- C10: the `/` operator is Python 2 floor division: for a nonzero
divisor it returns `Int.fdiv`, which is the floor of the exact quotient
(rounding toward negative infinity); in particular
`(/ -1 2)` gives `-1` and `(/ 7 -2)` gives `-4`. -/
theorem c10_floor_division : ∀ (a b : Int) (out : List String), b ≠ 0 →
    evaluate (.list [.sym "/", .int a, .int b]) out = (.ok (.int (a.fdiv b)), out) ∧
    ((a.fdiv b : Int) : ℚ) ≤ (a : ℚ) / (b : ℚ) ∧
    (a : ℚ) / (b : ℚ) < ((a.fdiv b : Int) : ℚ) + 1 ∧
    Int.fdiv (-1) 2 = -1 ∧ Int.fdiv 7 (-2) = -4 := by
  intro a b out hb
  obtain ⟨hlo, hhi⟩ := fdiv_rat_bounds a b hb
  refine ⟨?_, hlo, hhi, by decide, by decide⟩
  simp [evaluate, evalSeq, appPhase, operators, commandOf, applyOp, hb]

theorem c10_witness :
    evaluate (.list [.sym "/", .int (-1), .int 2]) [] =
      (.ok (.int (Int.fdiv (-1) 2)), []) :=
  (c10_floor_division (-1) 2 [] (by decide)).1

/-! ### Evaluator claim theorems -/

/-- C1: evaluating the empty list `()` does NOT raise the interpreter
`NullExpression` error: the special-form dispatch subscripts the empty
list (`expression[0]`) before anything else, raising a native
`IndexError` that the repl does not catch; the `NullExpression` check
sits in the application phase, which an empty list can never reach. -/
theorem c1_empty_list_native_error : ∀ out : List String,
    evaluate (.list []) out = (.error .indexError, out) ∧
    (∀ out2, evaluate (.list []) out ≠ (.error .nullExpression, out2)) ∧
    appPhase (.ok [], out) = (.error .nullExpression, out) ∧
    Err.isInterpreterError .indexError = false ∧
    Err.caughtByRepl .indexError = false := by
  intro out
  refine ⟨by simp [evaluate], ?_, by simp [appPhase], rfl, rfl⟩
  intro out2
  simp [evaluate]

/-- C2 (amended): for every non-empty list whose head is an integer
literal or a symbol that does not name a special form, all elements are
evaluated left-to-right (`evalSeq`); an error in any element propagates;
a non-callable first value fails with `InvalidOperator`; a callable
first value demands exactly two argument values, fewer failing with
`MissingArguments` (`(+ 1)`) and more with `TooManyArguments`
(`(+ 1 2 3)`), and otherwise the operator is applied.  (A list in head
position never reaches this path: see the counterexample and C9.) -/
theorem c2_application_rule :
    (∀ (e0 : Expr) (args : List Expr) (out : List String),
      (∃ n, e0 = .int n) ∨ (∃ s, e0 = .sym s ∧ commandOf s = none) →
      (∀ err o, evalSeq (e0 :: args) out = (.error err, o) →
        evaluate (.list (e0 :: args)) out = (.error err, o)) ∧
      (∀ m vs o, evalSeq (e0 :: args) out = (.ok (.int m :: vs), o) →
        evaluate (.list (e0 :: args)) out =
          (.error (.invalidOperator (.ofValue (.int m))), o)) ∧
      (∀ f vs o, evalSeq (e0 :: args) out = (.ok (.op f :: vs), o) →
        (vs.length < 2 →
          evaluate (.list (e0 :: args)) out = (.error .missingArguments, o)) ∧
        (2 < vs.length →
          evaluate (.list (e0 :: args)) out = (.error .tooManyArguments, o)) ∧
        (∀ x y, vs = [x, y] →
          evaluate (.list (e0 :: args)) out = (applyOp f x y, o)))) ∧
    evaluate (.list [.sym "+", .int 1]) [] = (.error .missingArguments, []) ∧
    evaluate (.list [.sym "+", .int 1, .int 2, .int 3]) [] =
      (.error .tooManyArguments, []) := by
  refine ⟨?_, ?_, ?_⟩
  · intro e0 args out hhead
    have heval : evaluate (.list (e0 :: args)) out =
        appPhase (evalSeq (e0 :: args) out) := by
      rcases hhead with ⟨n, rfl⟩ | ⟨s, rfl, hs⟩
      · simp [evaluate]
      · simp [evaluate, hs]
    refine ⟨?_, ?_, ?_⟩
    · intro err o h
      rw [heval, h]
      simp [appPhase]
    · intro m vs o h
      rw [heval, h]
      simp [appPhase]
    · intro f vs o h
      refine ⟨?_, ?_, ?_⟩
      · intro hlen
        rw [heval, h]
        cases vs with
        | nil => simp [appPhase]
        | cons x xs =>
          cases xs with
          | nil => simp [appPhase]
          | cons y ys =>
            simp only [List.length_cons] at hlen
            omega
      · intro hlen
        rw [heval, h]
        cases vs with
        | nil => simp at hlen
        | cons x xs =>
          cases xs with
          | nil => simp at hlen
          | cons y ys =>
            cases ys with
            | nil => simp at hlen
            | cons z zs =>
              have hge : ¬((x :: y :: z :: zs).length < 2) := by
                simp only [List.length_cons]
                omega
              simp [appPhase, hge]
      · intro x y hvs
        subst hvs
        rw [heval, h]
        simp [appPhase]
  · simp [evaluate, evalSeq, appPhase, operators, commandOf]
  · simp [evaluate, evalSeq, appPhase, operators, commandOf]

theorem c2_witness :
    evaluate (.list [.sym "+", .int 1]) [] = (.error .missingArguments, []) :=
  ((c2_application_rule.1 (.sym "+") [.int 1] []
      (Or.inr ⟨"+", rfl, by decide⟩)).2.2 .add [.int 1] []
      (by simp [evalSeq, evaluate, operators])).1 (by decide)

/-- C2 counterexample: a list in head position (not a special-form
name) does not get its elements evaluated and produces no interpreter
error; the membership test on an unhashable list raises a native
`TypeError` instead of the `InvalidOperator` the claim predicts. -/
theorem c2_counterexample :
    evaluate (.list [.list [.sym "+", .int 1, .int 2], .int 3, .int 4]) [] =
      (.error (.typeError "unhashable type: list"), []) ∧
    Err.isInterpreterError (.typeError "unhashable type: list") = false := by
  exact ⟨by simp [evaluate], rfl⟩

/-- C3: special-form invocations are arity-checked by `check_args`
before the handler runs (`if` exactly 3, `print` exactly 1, `begin` at
least 1 with an unbounded tail): too few arguments fail with
`MissingArguments`, too many with `TooManyArguments`, each with the
output sink untouched and no argument evaluated; `(begin)` fails with
`MissingArguments`; when the arity is satisfied the handler runs. -/
theorem c3_special_form_arity :
    (∀ (args : List Expr) (out : List String), args.length < 3 →
      evaluate (.list (.sym "if" :: args)) out = (.error .missingArguments, out)) ∧
    (∀ (args : List Expr) (out : List String), 3 < args.length →
      evaluate (.list (.sym "if" :: args)) out = (.error .tooManyArguments, out)) ∧
    (∀ out : List String,
      evaluate (.list [.sym "print"]) out = (.error .missingArguments, out)) ∧
    (∀ (args : List Expr) (out : List String), 1 < args.length →
      evaluate (.list (.sym "print" :: args)) out = (.error .tooManyArguments, out)) ∧
    (∀ out : List String,
      evaluate (.list [.sym "begin"]) out = (.error .missingArguments, out)) ∧
    (∀ (f : Expr) (r : List Expr) (out : List String),
      evaluate (.list (.sym "begin" :: f :: r)) out = begin_cmd f r out) ∧
    (∀ (t cq alt : Expr) (out : List String),
      evaluate (.list [.sym "if", t, cq, alt]) out = if_cmd t cq alt out) ∧
    (∀ (a : Expr) (out : List String),
      evaluate (.list [.sym "print", a]) out = print_cmd a out) := by
  refine ⟨?_, ?_, ?_, ?_, ?_, ?_, ?_, ?_⟩
  · intro args out hlen
    have h2 : ¬(3 < args.length) := by omega
    simp [evaluate, commandOf, check_args, getargspec, hlen, h2]
  · intro args out hlen
    have h2 : ¬(args.length < 3) := by omega
    simp [evaluate, commandOf, check_args, getargspec, hlen, h2]
  · intro out
    simp [evaluate, commandOf, check_args, getargspec]
  · intro args out hlen
    have h2 : ¬(args.length < 1) := by omega
    simp [evaluate, commandOf, check_args, getargspec, hlen, h2]
  · intro out
    simp [evaluate, commandOf, check_args, getargspec]
  · intro f r out
    simp [evaluate, commandOf, check_args, getargspec]
  · intro t cq alt out
    simp [evaluate, commandOf, check_args, getargspec]
  · intro a out
    simp [evaluate, commandOf, check_args, getargspec]

theorem c3_witness :
    evaluate (.list [.sym "begin"]) [] = (.error .missingArguments, []) :=
  c3_special_form_arity.2.2.2.2.1 []

/-- C5: `(if test conseq alt)` evaluates the test first; a truthy
(non-zero) value selects the consequent, a falsy one the alternative,
and the branch not taken is never evaluated; an error in the test
propagates.  Concretely, `(if (> 3 2) 1 (print 0))` returns 1 with no
output: the `print` in the untaken branch writes nothing. -/
theorem c5_if_semantics : ∀ (t c a : Expr) (out o1 : List String),
    (∀ v, evaluate t out = (.ok v, o1) → v.truthy = true →
      evaluate (.list [.sym "if", t, c, a]) out = evaluate c o1) ∧
    (∀ v, evaluate t out = (.ok v, o1) → v.truthy = false →
      evaluate (.list [.sym "if", t, c, a]) out = evaluate a o1) ∧
    (∀ err, evaluate t out = (.error err, o1) →
      evaluate (.list [.sym "if", t, c, a]) out = (.error err, o1)) ∧
    evaluate (.list [.sym "if", .list [.sym ">", .int 3, .int 2], .int 1,
        .list [.sym "print", .int 0]]) [] = (.ok (.int 1), []) := by
  intro t c a out o1
  have heval : ∀ (t c a : Expr) (out : List String),
      evaluate (.list [.sym "if", t, c, a]) out = if_cmd t c a out := by
    intro t c a out
    simp [evaluate, commandOf, check_args, getargspec]
  refine ⟨?_, ?_, ?_, ?_⟩
  · intro v hv htr
    rw [heval]
    simp only [if_cmd]
    rw [hv]
    simp [htr]
  · intro v hv htr
    rw [heval]
    simp only [if_cmd]
    rw [hv]
    simp [htr]
  · intro err hv
    rw [heval]
    simp only [if_cmd]
    rw [hv]
  · rw [heval]
    simp [if_cmd, evaluate, evalSeq, appPhase, operators, commandOf, applyOp,
      valueLt, Value.truthy]

theorem c5_witness :
    evaluate (.list [.sym "if", .int 1, .int 5, .int 0]) [] = evaluate (.int 5) [] :=
  (c5_if_semantics (.int 1) (.int 5) (.int 0) [] []).1 (.int 1)
    (by simp [evaluate]) (by decide)

/-- C6: a bare symbol is looked up only in the operator table: a hit
returns the operator as a value, a miss fails with
`InvalidOperator(name)`; the special-form names `if`, `print`, `begin`
are absent from that table, so evaluating them as plain symbols fails
the same way; `(foo 1 2)` with `foo` unknown fails with
`InvalidOperator("foo")`. -/
theorem c6_symbol_lookup : ∀ (s : String) (out : List String),
    (∀ o, operators s = some o → evaluate (.sym s) out = (.ok (.op o), out)) ∧
    (operators s = none →
      evaluate (.sym s) out = (.error (.invalidOperator (.ofName s)), out)) ∧
    operators "if" = none ∧ operators "print" = none ∧ operators "begin" = none ∧
    evaluate (.sym "if") out = (.error (.invalidOperator (.ofName "if")), out) ∧
    evaluate (.sym "print") out = (.error (.invalidOperator (.ofName "print")), out) ∧
    evaluate (.sym "begin") out = (.error (.invalidOperator (.ofName "begin")), out) ∧
    evaluate (.list [.sym "foo", .int 1, .int 2]) out =
      (.error (.invalidOperator (.ofName "foo")), out) := by
  intro s out
  refine ⟨?_, ?_, by decide, by decide, by decide, ?_, ?_, ?_, ?_⟩
  · intro o h
    simp [evaluate, h]
  · intro h
    simp [evaluate, h]
  · simp [evaluate, operators]
  · simp [evaluate, operators]
  · simp [evaluate, operators]
  · simp [evaluate, evalSeq, appPhase, operators, commandOf]

theorem c6_witness :
    evaluate (.sym "foo") [] = (.error (.invalidOperator (.ofName "foo")), []) :=
  (c6_symbol_lookup "foo" []).2.1 (by decide)

/-- C7: `(/ a 0)` raises the host `ZeroDivisionError`, which is not one
of the interpreter error classes and is not caught inside the
evaluator; it propagates out of `evaluate` unmodified, and the repl
loop catches it alongside the interpreter errors. -/
theorem c7_division_by_zero : ∀ (a : Int) (out : List String),
    evaluate (.list [.sym "/", .int a, .int 0]) out =
      (.error .zeroDivisionError, out) ∧
    Err.isInterpreterError .zeroDivisionError = false ∧
    Err.caughtByRepl .zeroDivisionError = true := by
  intro a out
  refine ⟨?_, rfl, rfl⟩
  simp [evaluate, evalSeq, appPhase, operators, commandOf, applyOp]

/-- C9: a non-empty list whose first element is itself a list bypasses
element evaluation entirely: the special-form membership test hashes
the unhashable list head, raising a native `TypeError` that belongs to
no interpreter error class and escapes the repl (no catch-all). -/
theorem c9_unhashable_list_head : ∀ (inner args : List Expr) (out : List String),
    evaluate (.list (.list inner :: args)) out =
      (.error (.typeError "unhashable type: list"), out) ∧
    Err.isInterpreterError (.typeError "unhashable type: list") = false ∧
    Err.caughtByRepl (.typeError "unhashable type: list") = false := by
  intro inner args out
  exact ⟨by simp [evaluate], rfl, rfl⟩

end Kamin1
